import Mathlib

/-!
Verification development for the zbgl task subsystem: the task ledger and
status updater (`task_broker.py`), the WebSocket notifier (`TaskNotifier`),
the bounded batch runner (`services/stream_checker.py`) and the stop route
(`routers/tasks.py`).  All definitions are shallow embeddings translated
directly from the Python source.
-/

namespace Zbgl

/-! ## Task ledger (models.TaskRecord rows as seen by task_broker.py) -/

/-- A row of the task ledger.  `status` is a plain string, exactly as in the
Python code, where it is compared against string literals such as
"canceled" and "failure".  `updated_at` is an abstract timestamp. -/
structure TaskRecord where
  id : String
  name : String
  status : String
  progress : Int
  message : String
  result : Option (List (String × String))
  updated_at : Nat
deriving Repr, DecidableEq

/-- The ledger: the list of task rows.  `session.get(TaskRecord, task_id)`
is primary-key lookup; rows are assumed keyed by `id`. -/
abbrev Db := List TaskRecord

/-- Primary-key lookup, `session.get(TaskRecord, task_id)`. -/
def dbGet (db : Db) (tid : String) : Option TaskRecord :=
  List.find? (fun t => t.id == tid) db

/-- Committing a mutated row back: replace the row with this id. -/
def dbSet (db : Db) (tid : String) (t' : TaskRecord) : Db :=
  List.map (fun t => if t.id == tid then t' else t) db

/-- The dict returned by `_update_db` on success and broadcast as
`task_update` data. -/
structure BData where
  id : String
  name : String
  status : String
  progress : Int
  message : String
  updated_at : Nat
deriving Repr, DecidableEq

/-- The terminal-state guard of `_update_db` (src/task_broker.py lines
90-93): with the current row in "canceled" or "failure", an incoming
status that is not None and not itself "canceled"/"failure" makes the
whole call return None.  Mirrors
`status not in ["canceled", "failure"] and status is not None`. -/
def guardRejects (curStatus : String) (status : Option String) : Bool :=
  (curStatus == "canceled" || curStatus == "failure") &&
  (match status with
   | some s => !(s == "canceled" || s == "failure")
   | none => false)

/-- Shallow embedding of `_update_db` in `task_broker.update_task_status`
(src/task_broker.py lines 82-111).  Returns the possibly-updated ledger and
the data dict (`none` models Python `return None`: row missing, or the
terminal-state guard rejecting the update).  Python truthiness is modelled
faithfully: `if status:` and `if message:` skip empty strings, `if progress
is not None:` applies 0, `if result:` skips the empty dict. -/
def updateDb (db : Db) (now : Nat) (task_id : String)
    (status : Option String) (progress : Option Int)
    (message : Option String) (result : Option (List (String × String))) :
    Db × Option BData :=
  match dbGet db task_id with
  | none => (db, none)
  | some task =>
    if guardRejects task.status status then
      (db, none)
    else
      let t1 := match status with
        | some s => if s ≠ "" then { task with status := s } else task
        | none => task
      let t2 := match progress with
        | some p => { t1 with progress := p }
        | none => t1
      let t3 := match message with
        | some m => if m ≠ "" then { t2 with message := m } else t2
        | none => t2
      let t4 := match result with
        | some r => if r ≠ [] then { t3 with result := some r } else t3
        | none => t3
      let t5 := { t4 with updated_at := now }
      (dbSet db task_id t5,
       some ⟨t5.id, t5.name, t5.status, t5.progress, t5.message, t5.updated_at⟩)

/-- Shallow embedding of the retry loop `_do_update`
(src/task_broker.py lines 113-119): up to `fuel` load attempts; a failed
attempt is followed by `asyncio.sleep(0.5)` (recorded as 500 ms).  Returns
the ledger, the data, the number of load attempts made and the list of
sleeps performed. -/
def doUpdateAux (now : Nat) (task_id : String) (status : Option String)
    (progress : Option Int) (message : Option String)
    (result : Option (List (String × String))) :
    Db → Nat → Db × Option BData × Nat × List Nat
  | db, 0 => (db, none, 0, [])
  | db, fuel + 1 =>
    let r := updateDb db now task_id status progress message result
    match r.2 with
    | some d => (r.1, some d, 1, [])
    | none =>
      let rest := doUpdateAux now task_id status progress message result r.1 fuel
      (rest.1, rest.2.1, rest.2.2.1 + 1, 500 :: rest.2.2.2)

/-- `_do_update` itself: `for i in range(5)`. -/
def doUpdate (db : Db) (now : Nat) (task_id : String) (status : Option String)
    (progress : Option Int) (message : Option String)
    (result : Option (List (String × String))) :
    Db × Option BData × Nat × List Nat :=
  doUpdateAux now task_id status progress message result db 5

/-! ## update_task_status (task_broker.py lines 79-135) -/

/-- Fault-injection environment: `dbExc` makes `_do_update` raise with the
given message, `bcExc` makes `notifier.broadcast` raise. -/
structure Env where
  dbExc : Option String
  bcExc : Option String
deriving Repr, DecidableEq

/-- Result of running the `try` block of `update_task_status`: either it
completes (with the ledger, the broadcast payloads handed to the notifier
and the log lines printed), or an exception escapes the block carrying the
ledger state at the point of the raise. -/
inductive TryResult where
  | ok (db : Db) (sent : List BData) (logs : List String)
  | raised (db : Db) (msg : String)
deriving DecidableEq

/-- The body of the `try` block in `update_task_status`
(src/task_broker.py lines 121-133): run `_do_update`; on `None` print a
debug line and return; otherwise broadcast the `task_update` payload. -/
def utsTryBody (env : Env) (db : Db) (now : Nat) (task_id : String)
    (status : Option String) (progress : Option Int) (message : Option String)
    (result : Option (List (String × String))) : TryResult :=
  match env.dbExc with
  | some e => .raised db e
  | none =>
    let r := doUpdate db now task_id status progress message result
    match r.2.1 with
    | none => .ok r.1 [] ["[WS] DEBUG: 无法更新任务进度 (ID: " ++ task_id ++ ")"]
    | some d =>
      match env.bcExc with
      | some e => .raised r.1 e
      | none => .ok r.1 [d] []

/-- Outcome of a call to `update_task_status`: the ledger, the payloads
broadcast, the log lines, and `raised` — an exception propagating to the
caller (`none` when the call returns normally; the Python function always
returns `None`, so there is no return value to model). -/
structure UtsOutcome where
  db : Db
  sent : List BData
  logs : List String
  raised : Option String
deriving DecidableEq

/-- Shallow embedding of `update_task_status` (src/task_broker.py lines
79-135): the `try` block wrapped in `except Exception as e`, which prints
the error and falls off the end of the function. -/
def update_task_status (env : Env) (db : Db) (now : Nat) (task_id : String)
    (status : Option String) (progress : Option Int) (message : Option String)
    (result : Option (List (String × String))) : UtsOutcome :=
  match utsTryBody env db now task_id status progress message result with
  | .ok db1 sent logs => ⟨db1, sent, logs, none⟩
  | .raised db1 e =>
      ⟨db1, [], ["[WS] DEBUG: update_task_status 广播出错: " ++ e], none⟩

/-! ## TaskNotifier (task_broker.py lines 17-40) -/

/-- `TaskNotifier.connect`: `self.active_connections.append(websocket)` —
a plain list append (the `accept` handshake is not modelled). -/
def connect {W : Type} (conns : List W) (w : W) : List W :=
  conns ++ [w]

/-- `TaskNotifier.disconnect`: remove the first occurrence, guarded by a
membership test (src/task_broker.py lines 26-28). -/
def disconnect {W : Type} [DecidableEq W] (conns : List W) (w : W) : List W :=
  if w ∈ conns then conns.erase w else conns

/-- The send loop of `TaskNotifier.broadcast` (lines 32-37): try to send to
each connection in order; a connection whose send raises is collected into
`dead_connections`.  Returns (connections delivered to, dead connections),
both in iteration order.  `fails w = true` models `send_json` raising on
`w`. -/
def broadcastLoop {W : Type} (fails : W → Bool) : List W → List W × List W
  | [] => ([], [])
  | c :: rest =>
    let r := broadcastLoop fails rest
    if fails c then (r.1, c :: r.2) else (c :: r.1, r.2)

/-- `TaskNotifier.broadcast` (src/task_broker.py lines 30-40): the send
loop followed by `disconnect` on each dead connection.  Returns the list of
connections the payload was delivered to and the new connection list. -/
def broadcast {W : Type} [DecidableEq W] (fails : W → Bool) (conns : List W) :
    List W × List W :=
  let lr := broadcastLoop fails conns
  (lr.1, lr.2.foldl disconnect conns)

/-! ## stop_task (routers/tasks.py lines 17-34) -/

/-- The environment with no injected faults (normal execution). -/
def envOk : Env := ⟨none, none⟩

/-- Outcome of the stop route: the ledger, the JSON response modelled as a
(status, message) pair, and the payloads broadcast. -/
structure StopOutcome where
  db : Db
  response : String × String
  sent : List BData
deriving DecidableEq

/-- Shallow embedding of the `stop_task` route (src/routers/tasks.py lines
17-34): if the row exists with status "pending" or "running", set it to
"canceled" with the manual-stop message, commit, then call
`update_task_status(task_id, status="canceled", ...)` (which rebroadcasts)
and answer success; otherwise leave the ledger alone and answer error. -/
def stop_task (db : Db) (now : Nat) (task_id : String) : StopOutcome :=
  match dbGet db task_id with
  | some task =>
    if task.status == "pending" || task.status == "running" then
      let t1 := { task with status := "canceled", message := "用户手动中止" }
      let db1 := dbSet db task_id t1
      let u := update_task_status envOk db1 now task_id (some "canceled") none
        (some "用户手动中止") none
      ⟨u.db, ("success", "已发送中止信号"), u.sent⟩
    else
      ⟨db, ("error", "任务不可取消或不存在"), []⟩
  | none => ⟨db, ("error", "任务不可取消或不存在"), []⟩

/-! ## Bounded batch runner (services/stream_checker.py lines 149-246)

`run_batch_check` deduplicates the channels by URL, launches one `_worker`
coroutine per remaining channel under a counting semaphore, gathers the
per-item result dicts, and — unless the shared `local_aborted` flag was
set — writes the non-canceled results back.  The workers are embedded as a
small state machine stepped by an explicit interleaving (a schedule of
worker indices); the suspension points are exactly the code's awaits: the
semaphore acquire and the probe.  The checks between acquiring the
semaphore and starting the probe run without an intervening await, so they
are folded into the acquire step; a worker that leaves the `async with`
block without probing releases its slot on scope exit without suspending,
so those paths are modelled with no net semaphore effect. -/

/-- A channel row as used by the runner: primary key, stream URL, name. -/
structure Channel where
  id : Nat
  url : String
  name : String
deriving Repr, DecidableEq

/-- The URL-deduplication loop of `run_batch_check`
(src/services/stream_checker.py lines 157-163): keep a channel only if its
URL has not been seen yet. -/
def dedupAux : List Channel → List String → List Channel
  | [], _ => []
  | ch :: rest, seen =>
    if ch.url ∈ seen then dedupAux rest seen
    else ch :: dedupAux rest (ch.url :: seen)

/-- `unique_channels` as computed by `run_batch_check`. -/
def dedupByUrl (channels : List Channel) : List Channel :=
  dedupAux channels []

/-- What `check_stream_visual` reports for one URL: a screenshot on
success, an error string on failure (the function catches its own
exceptions and always returns a dict). -/
inductive ProbeRes where
  | ok (image : String)
  | fail (error : String)
deriving Repr, DecidableEq

/-- The `status` key of a worker's result dict: `True`, `False`, or the
string "canceled". -/
inductive RStatus where
  | ok
  | failed
  | canceled
deriving Repr, DecidableEq

/-- A worker's result dict (`ch_id`, `status`, optional `image`/`error`). -/
structure WRes where
  status : RStatus
  ch_id : Nat
  image : Option String
  error : Option String
deriving Repr, DecidableEq

/-- Where a `_worker` coroutine currently is: at the pre-semaphore abort
check (line 179), suspended acquiring the semaphore (line 183), awaiting
its probe (line 201), or finished with its result dict. -/
inductive WPhase where
  | entry
  | waiting
  | probing
  | done (res : WRes)
deriving Repr, DecidableEq

/-- The shared state of one `run_batch_check` invocation: the workers'
phases, the semaphore counter, `local_aborted`, `finished_count`,
`last_reported_p`, the progress values broadcast so far, the status values
pushed (the "canceled" push at line 197), and the number of
`check_stream_visual` invocations. -/
structure RState where
  phases : List WPhase
  sem : Nat
  aborted : Bool
  finished : Nat
  lastReported : Int
  broadcasts : List Int
  statusUpdates : List String
  probeCount : Nat
deriving Repr, DecidableEq

/-- Replace worker `w`'s phase, leaving everything else unchanged. -/
def setPhase (st : RState) (w : Nat) (ph : WPhase) : RState :=
  { st with phases := st.phases.set w ph }

/-- The progress value computed after `finished` completions out of
`total` (line 206): `60 + int((finished_count / total) * 38)`. -/
def progressVal (finished total : Nat) : Int :=
  (60 + (finished * 38) / total : Nat)

/-- The progress-report gate (line 209):
`not local_aborted and progress_val > last_reported_p and
(progress_val - last_reported_p >= 2 or finished_count == total)`. -/
def shouldReport (aborted : Bool) (p lastRep : Int) (finished total : Nat) :
    Bool :=
  !aborted && decide (lastRep < p) &&
    (decide (2 ≤ p - lastRep) || finished == total)

/-- One step of worker `w`.  `chs` is the deduplicated list;
`pollCancel i` tells whether the ledger poll performed by worker `i` sees a
missing row or status "canceled" (line 194); `probe i` is the outcome of
worker `i`'s probe.  A step of a worker that is blocked, finished or out of
range leaves the state unchanged. -/
def step (chs : List Channel) (pollCancel : Nat → Bool)
    (probe : Nat → ProbeRes) (st : RState) (w : Nat) : RState :=
  match st.phases.get? w, chs.get? w with
  | some ph, some ch =>
    match ph with
    | .entry =>
      if st.aborted then
        setPhase st w (.done ⟨.canceled, ch.id, none, none⟩)
      else
        setPhase st w .waiting
    | .waiting =>
      if st.sem == 0 then st
      else if st.aborted then
        setPhase st w (.done ⟨.canceled, ch.id, none, none⟩)
      else if w % 2 == 0 && pollCancel w then
        { setPhase st w (.done ⟨.canceled, ch.id, none, none⟩) with
            aborted := true,
            statusUpdates := st.statusUpdates ++ ["canceled"] }
      else
        { setPhase st w .probing with
            sem := st.sem - 1,
            probeCount := st.probeCount + 1 }
    | .probing =>
      let total := chs.length
      let f1 := st.finished + 1
      let p := progressVal f1 total
      let doRep := shouldReport st.aborted p st.lastReported f1 total
      let res : WRes := match probe w with
        | .ok img => ⟨.ok, ch.id, some img, none⟩
        | .fail e => ⟨.failed, ch.id, none, some e⟩
      { setPhase st w (.done res) with
          sem := st.sem + 1,
          finished := f1,
          lastReported := if doRep then p else st.lastReported,
          broadcasts := if doRep then st.broadcasts ++ [p] else st.broadcasts }
    | .done _ => st
  | _, _ => st

/-- The state at the start of a run: every worker at entry, the semaphore
at the concurrency limit, `local_aborted = False`, `finished_count = 0`,
`last_reported_p = -1`. -/
def initState (n limit : Nat) : RState :=
  ⟨List.replicate n .entry, limit, false, 0, -1, [], [], 0⟩

/-- Run the workers under an explicit interleaving. -/
def runSched (chs : List Channel) (pollCancel : Nat → Bool)
    (probe : Nat → ProbeRes) (limit : Nat) (sched : List Nat) : RState :=
  sched.foldl (step chs pollCancel probe) (initState chs.length limit)

/-- Whether every worker has produced its result (i.e. `asyncio.gather`
has returned). -/
def allDone (st : RState) : Bool :=
  st.phases.all fun ph => match ph with | .done _ => true | _ => false

/-- The gathered result dict of worker `w`, once done. -/
def resOf (ph : WPhase) : Option WRes :=
  match ph with
  | .done r => some r
  | _ => none

/-- One row written back by the write-back loop (lines 234-244). -/
structure Write where
  ch_id : Nat
  check_status : Bool
  check_image : Option String
  check_error : Option String
  check_source : String
  is_enabled : Bool
deriving Repr, DecidableEq

/-- The write-back filter (lines 234-236): a result is written iff the
dict is truthy, `res.get('ch_id')` is truthy (nonzero), the status is not
"canceled", and the channel row exists (`if ch:`). -/
def mkWrite (chanIds : List Nat) (source : String) (r : WRes) :
    Option Write :=
  if r.ch_id != 0 && !(r.status == .canceled) && (chanIds.contains r.ch_id)
  then
    some ⟨r.ch_id, r.status == .ok, r.image,
      (if r.status == .ok then none else r.error), source,
      r.status == .ok⟩
  else none

/-- What `run_batch_check` produces: its Python return value (`None`,
`False` or `True`), the rows written back, and the final shared state. -/
structure BatchOutcome where
  retval : Option Bool
  writes : List Write
  final : RState
deriving DecidableEq

/-- Shallow embedding of `run_batch_check`
(src/services/stream_checker.py lines 149-246): empty input returns
`None`; otherwise dedupe, run the workers, and either return `False` with
no write-back (flag set) or write back the non-canceled results and return
`True`. -/
def run_batch_check (channels : List Channel) (chanIds : List Nat)
    (limit : Nat) (source : String) (pollCancel : Nat → Bool)
    (probe : Nat → ProbeRes) (sched : List Nat) : BatchOutcome :=
  if channels.isEmpty then
    ⟨none, [], initState 0 limit⟩
  else
    let uniq := dedupByUrl channels
    let st := runSched uniq pollCancel probe limit sched
    if st.aborted then
      ⟨some false, [], st⟩
    else
      ⟨some true,
        (st.phases.filterMap resOf).filterMap (mkWrite chanIds source), st⟩

/-- Modelled from the caller `check_channels_task`
(src/services/stream_checker.py lines 35-39): the final
`status="success"` update is sent unless `run_batch_check` returned
`False`. -/
def check_channels_persists_success (retval : Option Bool) : Bool :=
  retval != some false

/-- Whether a worker is currently executing its probe. -/
def isProbing (ph : WPhase) : Bool :=
  match ph with
  | .probing => true
  | _ => false

/-- The number of probes in flight. -/
def probingCount (st : RState) : Nat :=
  st.phases.countP isProbing

/-- Whether a worker has passed the point where its probe is invoked. -/
def isStarted (ph : WPhase) : Bool :=
  match ph with
  | .probing => true
  | .done _ => true
  | _ => false

/-- Whether a worker has returned its result. -/
def isDone (ph : WPhase) : Bool :=
  match ph with
  | .done _ => true
  | _ => false

/-- How many workers have started their probe. -/
def startedCount (st : RState) : Nat :=
  st.phases.countP isStarted

/-- How many workers have returned. -/
def doneCount (st : RState) : Nat :=
  st.phases.countP isDone

/-- The evolution of `(last_reported_p, broadcast progress values)` over
the first `k` probe completions of a cancellation-free run, as the code
computes it: at the `j`-th completion the value `progressVal j total` is
broadcast when the gate at line 209 (with `local_aborted` false) says
so. -/
def reportFold (total : Nat) : Nat → Int × List Int
  | 0 => (-1, [])
  | k + 1 =>
    let prev := reportFold total k
    let p := progressVal (k + 1) total
    if shouldReport false p prev.1 (k + 1) total then (p, prev.2 ++ [p])
    else prev

/-- The progress formula exactly as the specification words it:
`floor(base + (completed/total) * span)` with base 60 and span 38, taken
as a single rational floor. -/
def specProgress (finished total : Nat) : Int :=
  ((60 * total + finished * 38) / total : Nat)

/-- The broadcast rule exactly as the specification words it: emit iff the
new value differs from the last broadcast value by at least 2 percentage
points, or this is the final item. -/
def specGate (p lastRep : Int) (finished total : Nat) : Bool :=
  decide (2 ≤ (p - lastRep).natAbs) || finished == total

/-- The broadcasts a run following the specification rule would make over
the first `k` completions. -/
def specReportFold (total : Nat) : Nat → Int × List Int
  | 0 => (-1, [])
  | k + 1 =>
    let prev := specReportFold total k
    let p := specProgress (k + 1) total
    if specGate p prev.1 (k + 1) total then (p, prev.2 ++ [p])
    else prev

/-- The cancellation-free-run invariant of the batch runner: the flag is
never set, every probe invocation corresponds to a started worker, every
completion to a returned worker, and the report state follows
`reportFold`. -/
def NCInv (total : Nat) (st : RState) : Prop :=
  st.aborted = false ∧
  st.phases.length = total ∧
  st.probeCount = startedCount st ∧
  st.finished = doneCount st ∧
  st.lastReported = (reportFold total st.finished).1 ∧
  st.broadcasts = (reportFold total st.finished).2

/-! ## Helper lemmas -/

/-- If one `_update_db` call is a no-op returning None, the whole retry
loop spins through its fuel, sleeping 0.5 s after each failed attempt, and
returns None with the ledger untouched. -/
lemma doUpdateAux_stuck (now : Nat) (tid : String) (st : Option String)
    (pr : Option Int) (ms : Option String)
    (rs : Option (List (String × String))) (db : Db)
    (h : updateDb db now tid st pr ms rs = (db, none)) :
    ∀ fuel, doUpdateAux now tid st pr ms rs db fuel =
      (db, none, fuel, List.replicate fuel 500) := by
  intro fuel
  induction fuel with
  | zero => rfl
  | succ n ih =>
    simp only [doUpdateAux, h, ih]
    rfl

/-- A no-op `_update_db` makes `update_task_status` (with no injected
faults) return normally with the ledger untouched, nothing broadcast, and
the debug line logged. -/
lemma uts_of_noop (db : Db) (now : Nat) (tid : String) (st : Option String)
    (pr : Option Int) (ms : Option String)
    (rs : Option (List (String × String)))
    (h : updateDb db now tid st pr ms rs = (db, none)) :
    update_task_status envOk db now tid st pr ms rs =
      ⟨db, [], ["[WS] DEBUG: 无法更新任务进度 (ID: " ++ tid ++ ")"], none⟩ := by
  simp only [update_task_status, utsTryBody, envOk, doUpdate,
    doUpdateAux_stuck now tid st pr ms rs db h 5]

/-- A row absent from the ledger makes `_update_db` a no-op. -/
lemma updateDb_of_missing (db : Db) (now : Nat) (tid : String)
    (st : Option String) (pr : Option Int) (ms : Option String)
    (rs : Option (List (String × String))) (h : dbGet db tid = none) :
    updateDb db now tid st pr ms rs = (db, none) := by
  simp only [updateDb, h]

/-! ## C1 -/

/-- C1: the claim states that every terminal status (success, failure,
canceled) absorbs, rejecting non-terminal incoming statuses and different
terminal values.  Counterexample on the code: a task whose status is
"success" is not protected at all — an incoming "running" is applied —
and a "canceled" task accepts the different terminal value "failure". -/
theorem C1_counterexample :
    (updateDb [⟨"t1", "job", "success", 100, "done", none, 0⟩] 7 "t1"
        (some "running") none none none).1 =
      [⟨"t1", "job", "running", 100, "done", none, 7⟩] ∧
    (updateDb [⟨"t1", "job", "canceled", 50, "stop", none, 0⟩] 7 "t1"
        (some "failure") none none none).1 =
      [⟨"t1", "job", "failure", 50, "stop", none, 7⟩] := by
  decide

/-- C1 (amended): for every task whose current status is "canceled" or
"failure", a call to the Status Updater whose incoming status is present
and is neither "canceled" nor "failure" (so in particular "pending",
"running" or "success") rejects the whole update: `_update_db` leaves the
ledger unchanged and returns None, and `update_task_status` broadcasts
nothing and returns normally.  In particular after canceled, a subsequent
running/success update leaves the status canceled.  Tasks in "success" are
not protected, and canceled/failure may overwrite one another. -/
theorem C1_terminal_guard (db : Db) (now : Nat) (tid s : String)
    (pr : Option Int) (ms : Option String)
    (rs : Option (List (String × String))) (t : TaskRecord)
    (h : dbGet db tid = some t)
    (hterm : t.status = "canceled" ∨ t.status = "failure")
    (hs1 : s ≠ "canceled") (hs2 : s ≠ "failure") :
    updateDb db now tid (some s) pr ms rs = (db, none) ∧
    (update_task_status envOk db now tid (some s) pr ms rs).db = db ∧
    (update_task_status envOk db now tid (some s) pr ms rs).sent = [] ∧
    (update_task_status envOk db now tid (some s) pr ms rs).raised = none := by
  have hg : guardRejects t.status (some s) = true := by
    rcases hterm with h2 | h2 <;> simp [guardRejects, h2, hs1, hs2]
  have hu : updateDb db now tid (some s) pr ms rs = (db, none) := by
    simp only [updateDb, h, hg, if_true]
  refine ⟨hu, ?_, ?_, ?_⟩ <;> simp [uts_of_noop db now tid (some s) pr ms rs hu]

/-- C1 witness: a canceled task hit with an incoming "running" keeps its
ledger row untouched and nothing is broadcast. -/
theorem C1_terminal_guard_witness :
    updateDb [⟨"t1", "job", "canceled", 50, "stop", none, 0⟩] 7 "t1"
        (some "running") none none none =
      ([⟨"t1", "job", "canceled", 50, "stop", none, 0⟩], none) ∧
    (update_task_status envOk [⟨"t1", "job", "canceled", 50, "stop", none, 0⟩]
        7 "t1" (some "running") none none none).sent = [] := by
  have h := C1_terminal_guard [⟨"t1", "job", "canceled", 50, "stop", none, 0⟩]
    7 "t1" "running" none none none ⟨"t1", "job", "canceled", 50, "stop", none, 0⟩
    (by decide) (Or.inl rfl) (by decide) (by decide)
  exact ⟨h.1, h.2.2.1⟩

/-! ## C3 -/

/-- C3: calling the Status Updater for a task id with no ledger row makes
it retry the load exactly 5 times, sleeping 0.5 s (500 ms) after each
failed attempt; the row still being absent, the call performs no update,
broadcasts nothing, logs the failure, and propagates no exception. -/
theorem C3_missing_row (db : Db) (now : Nat) (tid : String)
    (st : Option String) (pr : Option Int) (ms : Option String)
    (rs : Option (List (String × String))) (h : dbGet db tid = none) :
    doUpdate db now tid st pr ms rs = (db, none, 5, [500, 500, 500, 500, 500]) ∧
    update_task_status envOk db now tid st pr ms rs =
      ⟨db, [], ["[WS] DEBUG: 无法更新任务进度 (ID: " ++ tid ++ ")"], none⟩ := by
  have hu := updateDb_of_missing db now tid st pr ms rs h
  constructor
  · simpa [doUpdate] using doUpdateAux_stuck now tid st pr ms rs db hu 5
  · exact uts_of_noop db now tid st pr ms rs hu

/-- C3 witness: the empty ledger at a concrete id. -/
theorem C3_missing_row_witness :
    doUpdate ([] : Db) 7 "tX" (some "running") none none none =
      ([], none, 5, [500, 500, 500, 500, 500]) ∧
    update_task_status envOk ([] : Db) 7 "tX" (some "running") none none none =
      ⟨[], [], ["[WS] DEBUG: 无法更新任务进度 (ID: " ++ "tX" ++ ")"], none⟩ :=
  C3_missing_row [] 7 "tX" (some "running") none none none (by decide)

/-! ## C2 -/

/-- C2: the claim states that outcomes of items that completed before the
cancellation was observed are persisted.  Counterexample on the code: in a
3-item run with concurrency 2, worker 0 completes its probe successfully
and no cancellation has yet been observed (state after the schedule
prefix); then worker 2's ledger poll observes the cancellation and worker
1 finishes.  The runner returns False and the write-back is skipped
entirely, so worker 0's completed outcome is NOT persisted. -/
theorem C2_counterexample :
    (runSched (dedupByUrl [⟨1, "u1", "a"⟩, ⟨2, "u2", "b"⟩, ⟨3, "u3", "c"⟩])
        (fun i => i == 2) (fun _ => .ok "img") 2
        [0, 0, 1, 1, 2, 2, 0]).aborted = false ∧
    (runSched (dedupByUrl [⟨1, "u1", "a"⟩, ⟨2, "u2", "b"⟩, ⟨3, "u3", "c"⟩])
        (fun i => i == 2) (fun _ => .ok "img") 2
        [0, 0, 1, 1, 2, 2, 0]).phases.get? 0 =
      some (.done ⟨.ok, 1, some "img", none⟩) ∧
    allDone (run_batch_check [⟨1, "u1", "a"⟩, ⟨2, "u2", "b"⟩, ⟨3, "u3", "c"⟩]
        [1, 2, 3] 2 "manual" (fun i => i == 2) (fun _ => .ok "img")
        [0, 0, 1, 1, 2, 2, 0, 2, 1]).final = true ∧
    (run_batch_check [⟨1, "u1", "a"⟩, ⟨2, "u2", "b"⟩, ⟨3, "u3", "c"⟩]
        [1, 2, 3] 2 "manual" (fun i => i == 2) (fun _ => .ok "img")
        [0, 0, 1, 1, 2, 2, 0, 2, 1]).final.phases.get? 0 =
      some (.done ⟨.ok, 1, some "img", none⟩) ∧
    (run_batch_check [⟨1, "u1", "a"⟩, ⟨2, "u2", "b"⟩, ⟨3, "u3", "c"⟩]
        [1, 2, 3] 2 "manual" (fun i => i == 2) (fun _ => .ok "img")
        [0, 0, 1, 1, 2, 2, 0, 2, 1]).retval = some false ∧
    (run_batch_check [⟨1, "u1", "a"⟩, ⟨2, "u2", "b"⟩, ⟨3, "u3", "c"⟩]
        [1, 2, 3] 2 "manual" (fun i => i == 2) (fun _ => .ok "img")
        [0, 0, 1, 1, 2, 2, 0, 2, 1]).writes = [] := by
  decide

/-- C2 (amended): whenever the shared cancellation flag was set during the
run, `run_batch_check` returns `False` (a canceled outcome), the caller
does not persist a terminal success, and NO per-item outcome is written
back to the database — including outcomes of items that completed before
the cancellation was observed; cancellation discards every collected
outcome of the batch. -/
theorem C2_abort_discards (channels : List Channel) (chanIds : List Nat)
    (limit : Nat) (source : String) (pollCancel : Nat → Bool)
    (probe : Nat → ProbeRes) (sched : List Nat)
    (h : (run_batch_check channels chanIds limit source pollCancel probe
      sched).final.aborted = true) :
    (run_batch_check channels chanIds limit source pollCancel probe
      sched).retval = some false ∧
    (run_batch_check channels chanIds limit source pollCancel probe
      sched).writes = [] ∧
    check_channels_persists_success
      (run_batch_check channels chanIds limit source pollCancel probe
        sched).retval = false := by
  by_cases he : channels.isEmpty
  · rw [run_batch_check, if_pos he] at h
    simp [initState] at h
  · rw [run_batch_check, if_neg he] at h ⊢
    by_cases ha : (runSched (dedupByUrl channels) pollCancel probe limit
        sched).aborted = true
    · simp [ha, check_channels_persists_success]
    · rw [if_neg ha] at h
      exact absurd h ha

/-- C2 witness: a concrete aborted run returns False, writes nothing back
and suppresses the final success update. -/
theorem C2_abort_discards_witness :
    (run_batch_check [⟨1, "u1", "a"⟩, ⟨2, "u2", "b"⟩] [1, 2] 5 "auto"
      (fun _ => true) (fun _ => .ok "i") [0, 0]).retval = some false ∧
    (run_batch_check [⟨1, "u1", "a"⟩, ⟨2, "u2", "b"⟩] [1, 2] 5 "auto"
      (fun _ => true) (fun _ => .ok "i") [0, 0]).writes = [] ∧
    check_channels_persists_success
      (run_batch_check [⟨1, "u1", "a"⟩, ⟨2, "u2", "b"⟩] [1, 2] 5 "auto"
        (fun _ => true) (fun _ => .ok "i") [0, 0]).retval = false :=
  C2_abort_discards [⟨1, "u1", "a"⟩, ⟨2, "u2", "b"⟩] [1, 2] 5 "auto"
    (fun _ => true) (fun _ => .ok "i") [0, 0] (by decide)

/-! ## C4 -/

/-- Counting after a point update: the new count plus the old element's
contribution equals the old count plus the new element's contribution. -/
lemma countP_set_eq {α : Type} (p : α → Bool) :
    ∀ (l : List α) (i : Nat) (a x : α), l.get? i = some a →
      (l.set i x).countP p + (if p a then 1 else 0) =
        l.countP p + (if p x then 1 else 0) := by
  intro l
  induction l with
  | nil => intro i a x h; simp at h
  | cons b t ih =>
    intro i a x h
    cases i with
    | zero =>
      simp only [List.get?] at h
      obtain rfl : b = a := by injection h
      simp only [List.set]
      rw [List.countP_cons, List.countP_cons]
      omega
    | succ n =>
      simp only [List.get?] at h
      rw [List.set_cons_succ, List.countP_cons, List.countP_cons]
      have := ih n a x h
      omega

/-- A worker listed as probing contributes to the count. -/
lemma one_le_countP_of_get? {α : Type} (p : α → Bool) (l : List α) (i : Nat)
    (a : α) (h : l.get? i = some a) (hp : p a = true) :
    1 ≤ l.countP p :=
  List.countP_pos_iff.mpr ⟨a, List.get?_mem h, hp⟩

/-- Point update with both old and new element not counted: count
unchanged. -/
lemma countP_set_ff {α : Type} (p : α → Bool) (l : List α) (i : Nat)
    (a x : α) (h : l.get? i = some a) (ha : p a = false)
    (hx : p x = false) : (l.set i x).countP p = l.countP p := by
  have := countP_set_eq p l i a x h
  simp [ha, hx] at this
  omega

/-- Point update from a non-counted to a counted element: count goes up by
one. -/
lemma countP_set_ft {α : Type} (p : α → Bool) (l : List α) (i : Nat)
    (a x : α) (h : l.get? i = some a) (ha : p a = false)
    (hx : p x = true) : (l.set i x).countP p = l.countP p + 1 := by
  have := countP_set_eq p l i a x h
  simp [ha, hx] at this
  omega

/-- Point update from a counted to a non-counted element: count goes down
by one. -/
lemma countP_set_tf {α : Type} (p : α → Bool) (l : List α) (i : Nat)
    (a x : α) (h : l.get? i = some a) (ha : p a = true)
    (hx : p x = false) : (l.set i x).countP p + 1 = l.countP p := by
  have := countP_set_eq p l i a x h
  simp [ha, hx] at this
  omega

/-- Every step of the runner preserves the semaphore accounting: probes in
flight plus free slots equal the concurrency limit. -/
lemma step_sem_inv (chs : List Channel) (pollCancel : Nat → Bool)
    (probe : Nat → ProbeRes) (limit : Nat) (st : RState) (w : Nat)
    (h : probingCount st + st.sem = limit) :
    probingCount (step chs pollCancel probe st w) +
      (step chs pollCancel probe st w).sem = limit := by
  cases hg : st.phases.get? w with
  | none => simp only [step, hg]; exact h
  | some ph =>
    cases hc : chs.get? w with
    | none => simp only [step, hg, hc]; exact h
    | some ch =>
      cases ph with
      | entry =>
        by_cases hab : st.aborted = true
        · simp only [step, hg, hc, hab, Bool.false_eq_true, if_true,
            if_false, setPhase, probingCount]
          rw [countP_set_ff isProbing st.phases w WPhase.entry
            (WPhase.done ⟨.canceled, ch.id, none, none⟩) hg rfl rfl]
          exact h
        · simp only [step, hg, hc, hab, Bool.false_eq_true, if_true,
            if_false, setPhase, probingCount]
          rw [countP_set_ff isProbing st.phases w WPhase.entry
            WPhase.waiting hg rfl rfl]
          exact h
      | waiting =>
        by_cases hs : (st.sem == 0) = true
        · simp only [step, hg, hc, hs, if_true]; exact h
        · have hs' : 1 ≤ st.sem := by
            rcases Nat.eq_zero_or_pos st.sem with h0 | h1
            · rw [h0] at hs; simp at hs
            · exact h1
          by_cases hab : st.aborted = true
          · simp only [step, hg, hc, hs, hab, if_true, if_false,
              Bool.false_eq_true, setPhase, probingCount]
            rw [countP_set_ff isProbing st.phases w WPhase.waiting
              (WPhase.done ⟨.canceled, ch.id, none, none⟩) hg rfl rfl]
            exact h
          · by_cases hpoll : (w % 2 == 0 && pollCancel w) = true
            · simp only [step, hg, hc, hs, hab, hpoll, Bool.false_eq_true,
                if_true, if_false, setPhase, probingCount]
              rw [countP_set_ff isProbing st.phases w WPhase.waiting
                (WPhase.done ⟨.canceled, ch.id, none, none⟩) hg rfl rfl]
              exact h
            · simp only [step, hg, hc, hs, hab, hpoll, Bool.false_eq_true,
                if_true, if_false, setPhase, probingCount]
              rw [countP_set_ft isProbing st.phases w WPhase.waiting
                WPhase.probing hg rfl rfl]
              simp only [probingCount] at h
              omega
      | probing =>
        cases hpw : probe w with
        | ok img =>
          simp only [step, hg, hc, hpw, setPhase, probingCount]
          have h2 := one_le_countP_of_get? isProbing st.phases w
            WPhase.probing hg rfl
          have h3 := countP_set_tf isProbing st.phases w WPhase.probing
            (WPhase.done ⟨.ok, ch.id, some img, none⟩) hg rfl rfl
          simp only [probingCount] at h
          omega
        | fail e =>
          simp only [step, hg, hc, hpw, setPhase, probingCount]
          have h2 := one_le_countP_of_get? isProbing st.phases w
            WPhase.probing hg rfl
          have h3 := countP_set_tf isProbing st.phases w WPhase.probing
            (WPhase.done ⟨.failed, ch.id, none, some e⟩) hg rfl rfl
          simp only [probingCount] at h
          omega
      | done res =>
        simp only [step, hg, hc]; exact h

/-- Any invariant preserved by `step` holds after any schedule. -/
lemma foldl_step_inv (chs : List Channel) (pollCancel : Nat → Bool)
    (probe : Nat → ProbeRes) (P : RState → Prop)
    (hstep : ∀ st w, P st → P (step chs pollCancel probe st w)) :
    ∀ (sched : List Nat) (st : RState), P st →
      P (sched.foldl (step chs pollCancel probe) st) := by
  intro sched
  induction sched with
  | nil => intro st h; exact h
  | cons w rest ih =>
    intro st h
    exact ih _ (hstep st w h)

/-- C4: for a batch of N deduplicated work items and concurrency limit L
with N > L, at no point of any interleaving do more than L probes execute
simultaneously: the semaphore keeps the number of in-flight
`check_stream_visual` calls at or below the limit. -/
theorem C4_concurrency_cap (chs : List Channel) (pollCancel : Nat → Bool)
    (probe : Nat → ProbeRes) (limit : Nat) (sched : List Nat)
    (h : limit < chs.length) :
    probingCount (runSched chs pollCancel probe limit sched) ≤ limit := by
  have h0 : probingCount (initState chs.length limit) = 0 := by
    simp only [probingCount, initState]
    rw [List.countP_eq_zero]
    intro a ha
    rw [(List.mem_replicate.mp ha).2]
    simp [isProbing]
  have h1 : (initState chs.length limit).sem = limit := rfl
  have hinit : probingCount (initState chs.length limit) +
      (initState chs.length limit).sem = limit := by omega
  have hall := foldl_step_inv chs pollCancel probe
    (fun st => probingCount st + st.sem = limit)
    (fun st w hp => step_sem_inv chs pollCancel probe limit st w hp)
    sched _ hinit
  have hrun : runSched chs pollCancel probe limit sched =
      sched.foldl (step chs pollCancel probe) (initState chs.length limit) :=
    rfl
  rw [hrun]
  omega

/-- C4 witness: three items, limit 1, a schedule that starts everything it
can — never more than one probe in flight. -/
theorem C4_concurrency_cap_witness :
    (1 : Nat) < ([⟨1, "u1", "a"⟩, ⟨2, "u2", "b"⟩, ⟨3, "u3", "c"⟩] :
      List Channel).length ∧
    probingCount (runSched [⟨1, "u1", "a"⟩, ⟨2, "u2", "b"⟩, ⟨3, "u3", "c"⟩]
      (fun _ => false) (fun _ => .ok "i") 1 [0, 1, 2, 0, 1, 2]) ≤ 1 :=
  ⟨by decide,
   C4_concurrency_cap [⟨1, "u1", "a"⟩, ⟨2, "u2", "b"⟩, ⟨3, "u3", "c"⟩]
     (fun _ => false) (fun _ => .ok "i") 1 [0, 1, 2, 0, 1, 2] (by decide)⟩

/-! ## C5 -/

/-- Membership in the deduplicated list's URLs: present in the input and
not among the already-seen URLs. -/
lemma mem_map_dedupAux (u : String) :
    ∀ (chs : List Channel) (seen : List String),
      u ∈ (dedupAux chs seen).map Channel.url ↔
        u ∈ chs.map Channel.url ∧ u ∉ seen := by
  intro chs
  induction chs with
  | nil => intro seen; simp [dedupAux]
  | cons ch rest ih =>
    intro seen
    by_cases hm : ch.url ∈ seen
    · rw [show dedupAux (ch :: rest) seen = dedupAux rest seen by
        simp [dedupAux, hm]]
      rw [ih seen]
      simp only [List.map_cons, List.mem_cons]
      constructor
      · exact fun h => ⟨Or.inr h.1, h.2⟩
      · rintro ⟨h1 | h1, h2⟩
        · exact absurd (h1 ▸ hm) h2
        · exact ⟨h1, h2⟩
    · rw [show dedupAux (ch :: rest) seen =
          ch :: dedupAux rest (ch.url :: seen) by simp [dedupAux, hm]]
      simp only [List.map_cons, List.mem_cons, ih (ch.url :: seen),
        List.mem_cons, not_or]
      constructor
      · rintro (h1 | ⟨h1, h2, h3⟩)
        · exact ⟨Or.inl h1, h1 ▸ hm⟩
        · exact ⟨Or.inr h1, h3⟩
      · rintro ⟨h1 | h1, h2⟩
        · exact Or.inl h1
        · by_cases hu : u = ch.url
          · exact Or.inl hu
          · exact Or.inr ⟨h1, hu, h2⟩

/-- The deduplicated list has pairwise-distinct URLs. -/
lemma nodup_map_dedupAux :
    ∀ (chs : List Channel) (seen : List String),
      ((dedupAux chs seen).map Channel.url).Nodup := by
  intro chs
  induction chs with
  | nil => intro seen; simp [dedupAux]
  | cons ch rest ih =>
    intro seen
    by_cases hm : ch.url ∈ seen
    · rw [show dedupAux (ch :: rest) seen = dedupAux rest seen by
        simp [dedupAux, hm]]
      exact ih seen
    · rw [show dedupAux (ch :: rest) seen =
          ch :: dedupAux rest (ch.url :: seen) by simp [dedupAux, hm]]
      simp only [List.map_cons, List.nodup_cons]
      refine ⟨?_, ih _⟩
      intro hmem
      rw [mem_map_dedupAux] at hmem
      exact hmem.2 (List.mem_cons_self _ _)

/-- Deduplication keeps the first input item for each URL: searching the
deduplicated list for a URL finds the same item as searching the input. -/
lemma find?_dedupAux (u : String) :
    ∀ (chs : List Channel) (seen : List String), u ∉ seen →
      (dedupAux chs seen).find? (fun c => c.url == u) =
        chs.find? (fun c => c.url == u) := by
  intro chs
  induction chs with
  | nil => intro seen _; rfl
  | cons ch rest ih =>
    intro seen h
    by_cases hm : ch.url ∈ seen
    · have hne : ((fun (c : Channel) => c.url == u) ch) = false := by
        simp only [beq_eq_false_iff_ne, ne_eq]
        intro he
        exact h (he ▸ hm)
      rw [show dedupAux (ch :: rest) seen = dedupAux rest seen by
        simp [dedupAux, hm]]
      rw [ih seen h, List.find?_cons_of_neg _ (by simp [hne])]
    · rw [show dedupAux (ch :: rest) seen =
          ch :: dedupAux rest (ch.url :: seen) by simp [dedupAux, hm]]
      rw [List.find?_cons, List.find?_cons]
      cases hpc : (ch.url == u) with
      | true => simp only [hpc]
      | false =>
        have hu : u ∉ ch.url :: seen := by
          simp only [List.mem_cons, not_or]
          refine ⟨?_, h⟩
          simp only [beq_eq_false_iff_ne, ne_eq] at hpc
          exact fun he => hpc he.symm
        simp only [hpc]
        exact ih (ch.url :: seen) hu

/-- The deduplicated list is exactly as long as the number of distinct
URLs in the input. -/
lemma dedupByUrl_length (channels : List Channel) :
    (dedupByUrl channels).length = (channels.map Channel.url).toFinset.card := by
  have h1 : ((dedupByUrl channels).map Channel.url).toFinset =
      (channels.map Channel.url).toFinset := by
    ext u
    simp only [List.mem_toFinset, dedupByUrl, mem_map_dedupAux u channels []]
    simp
  calc (dedupByUrl channels).length
      = ((dedupByUrl channels).map Channel.url).length := by
        rw [List.length_map]
    _ = ((dedupByUrl channels).map Channel.url).toFinset.card :=
        (List.toFinset_card_of_nodup (nodup_map_dedupAux channels [])).symm
    _ = (channels.map Channel.url).toFinset.card := by rw [h1]

/-- Point update with both old and new element counted: count
unchanged. -/
lemma countP_set_tt {α : Type} (p : α → Bool) (l : List α) (i : Nat)
    (a x : α) (h : l.get? i = some a) (ha : p a = true)
    (hx : p x = true) : (l.set i x).countP p = l.countP p := by
  have := countP_set_eq p l i a x h
  simp [ha, hx] at this
  omega

/-- Unfolding one completion of the report fold. -/
lemma reportFold_succ (total k : Nat) :
    reportFold total (k + 1) =
      (if shouldReport false (progressVal (k + 1) total)
          (reportFold total k).1 (k + 1) total = true
       then (progressVal (k + 1) total,
        (reportFold total k).2 ++ [progressVal (k + 1) total])
       else reportFold total k) :=
  rfl

/-- One step of a cancellation-free run preserves the run invariant. -/
lemma step_nc_inv (chs : List Channel) (pollCancel : Nat → Bool)
    (probe : Nat → ProbeRes) (hpc : ∀ i, pollCancel i = false)
    (st : RState) (w : Nat) (h : NCInv chs.length st) :
    NCInv chs.length (step chs pollCancel probe st w) := by
  obtain ⟨hab, hlen, hpro, hfin, hlast, hbc⟩ := h
  cases hg : st.phases.get? w with
  | none => simp only [step, hg]; exact ⟨hab, hlen, hpro, hfin, hlast, hbc⟩
  | some ph =>
    cases hc : chs.get? w with
    | none =>
      simp only [step, hg, hc]; exact ⟨hab, hlen, hpro, hfin, hlast, hbc⟩
    | some ch =>
      cases ph with
      | entry =>
        simp only [step, hg, hc, hab, Bool.false_eq_true, if_false, setPhase]
        refine ⟨rfl, ?_, ?_, ?_, hlast, hbc⟩
        · simpa [List.length_set] using hlen
        · simpa [startedCount,
            countP_set_ff isStarted st.phases w WPhase.entry WPhase.waiting
              hg rfl rfl] using hpro
        · simpa [doneCount,
            countP_set_ff isDone st.phases w WPhase.entry WPhase.waiting
              hg rfl rfl] using hfin
      | waiting =>
        by_cases hs : (st.sem == 0) = true
        · simp only [step, hg, hc, hs, if_true]
          exact ⟨hab, hlen, hpro, hfin, hlast, hbc⟩
        · have hpoll : (w % 2 == 0 && pollCancel w) = false := by
            simp [hpc w]
          simp only [step, hg, hc, hs, hab, hpoll, Bool.false_eq_true,
            if_false, setPhase]
          refine ⟨rfl, ?_, ?_, ?_, hlast, hbc⟩
          · simpa [List.length_set] using hlen
          · simp only [startedCount,
              countP_set_ft isStarted st.phases w WPhase.waiting
                WPhase.probing hg rfl rfl]
            simp only [startedCount] at hpro
            omega
          · simpa [doneCount,
              countP_set_ff isDone st.phases w WPhase.waiting WPhase.probing
                hg rfl rfl] using hfin
      | probing =>
        cases hpw : probe w with
        | ok img =>
          simp only [step, hg, hc, hpw, setPhase, hab]
          refine ⟨rfl, ?_, ?_, ?_, ?_, ?_⟩
          · simpa [List.length_set] using hlen
          · simpa [startedCount,
              countP_set_tt isStarted st.phases w WPhase.probing
                (WPhase.done ⟨.ok, ch.id, some img, none⟩) hg rfl rfl]
              using hpro
          · simp only [doneCount,
              countP_set_ft isDone st.phases w WPhase.probing
                (WPhase.done ⟨.ok, ch.id, some img, none⟩) hg rfl rfl]
            simp only [doneCount] at hfin
            omega
          · show (if shouldReport false
                (progressVal (st.finished + 1) chs.length) st.lastReported
                (st.finished + 1) chs.length = true
              then progressVal (st.finished + 1) chs.length
              else st.lastReported) =
              (reportFold chs.length (st.finished + 1)).1
            rw [reportFold_succ chs.length st.finished, hlast]
            by_cases hC : shouldReport false
                (progressVal (st.finished + 1) chs.length)
                ((reportFold chs.length st.finished).1)
                (st.finished + 1) chs.length = true <;>
              simp [hC]
          · show (if shouldReport false
                (progressVal (st.finished + 1) chs.length) st.lastReported
                (st.finished + 1) chs.length = true
              then st.broadcasts ++ [progressVal (st.finished + 1) chs.length]
              else st.broadcasts) =
              (reportFold chs.length (st.finished + 1)).2
            rw [reportFold_succ chs.length st.finished, hlast, hbc]
            by_cases hC : shouldReport false
                (progressVal (st.finished + 1) chs.length)
                ((reportFold chs.length st.finished).1)
                (st.finished + 1) chs.length = true <;>
              simp [hC]
        | fail e =>
          simp only [step, hg, hc, hpw, setPhase, hab]
          refine ⟨rfl, ?_, ?_, ?_, ?_, ?_⟩
          · simpa [List.length_set] using hlen
          · simpa [startedCount,
              countP_set_tt isStarted st.phases w WPhase.probing
                (WPhase.done ⟨.failed, ch.id, none, some e⟩) hg rfl rfl]
              using hpro
          · simp only [doneCount,
              countP_set_ft isDone st.phases w WPhase.probing
                (WPhase.done ⟨.failed, ch.id, none, some e⟩) hg rfl rfl]
            simp only [doneCount] at hfin
            omega
          · show (if shouldReport false
                (progressVal (st.finished + 1) chs.length) st.lastReported
                (st.finished + 1) chs.length = true
              then progressVal (st.finished + 1) chs.length
              else st.lastReported) =
              (reportFold chs.length (st.finished + 1)).1
            rw [reportFold_succ chs.length st.finished, hlast]
            by_cases hC : shouldReport false
                (progressVal (st.finished + 1) chs.length)
                ((reportFold chs.length st.finished).1)
                (st.finished + 1) chs.length = true <;>
              simp [hC]
          · show (if shouldReport false
                (progressVal (st.finished + 1) chs.length) st.lastReported
                (st.finished + 1) chs.length = true
              then st.broadcasts ++ [progressVal (st.finished + 1) chs.length]
              else st.broadcasts) =
              (reportFold chs.length (st.finished + 1)).2
            rw [reportFold_succ chs.length st.finished, hlast, hbc]
            by_cases hC : shouldReport false
                (progressVal (st.finished + 1) chs.length)
                ((reportFold chs.length st.finished).1)
                (st.finished + 1) chs.length = true <;>
              simp [hC]
      | done res =>
        simp only [step, hg, hc]
        exact ⟨hab, hlen, hpro, hfin, hlast, hbc⟩

/-- The run invariant holds after any schedule of a cancellation-free
run. -/
lemma runSched_nc_inv (chs : List Channel) (pollCancel : Nat → Bool)
    (probe : Nat → ProbeRes) (limit : Nat) (sched : List Nat)
    (hpc : ∀ i, pollCancel i = false) :
    NCInv chs.length (runSched chs pollCancel probe limit sched) := by
  have hinit : NCInv chs.length (initState chs.length limit) := by
    refine ⟨rfl, by simp [initState], ?_, ?_, rfl, rfl⟩
    · simp only [initState, startedCount, probingCount]
      rw [List.countP_eq_zero.mpr]
      intro a ha
      rw [(List.mem_replicate.mp ha).2]
      simp [isStarted]
    · simp only [initState, doneCount]
      rw [List.countP_eq_zero.mpr]
      intro a ha
      rw [(List.mem_replicate.mp ha).2]
      simp [isDone]
  exact foldl_step_inv chs pollCancel probe (NCInv chs.length)
    (fun st w hp => step_nc_inv chs pollCancel probe hpc st w hp)
    sched _ hinit

/-- `allDone` is the per-phase `isDone` test over all workers. -/
lemma allDone_eq (st : RState) : allDone st = st.phases.all isDone :=
  rfl

/-- C5: `run_batch_check` deduplicates the input by URL before dispatch,
keeping the first item for each URL (the deduplicated list has
pairwise-distinct URLs and searching it for any URL finds the same item
as searching the input), and in a completed cancellation-free run the
number of probe invocations equals the number of distinct URLs in the
input. -/
theorem C5_dedup (channels : List Channel) (chanIds : List Nat)
    (limit : Nat) (source : String) (pollCancel : Nat → Bool)
    (probe : Nat → ProbeRes) (sched : List Nat)
    (hpc : ∀ i, pollCancel i = false)
    (hdone : allDone (run_batch_check channels chanIds limit source
      pollCancel probe sched).final = true) :
    ((dedupByUrl channels).map Channel.url).Nodup ∧
    (∀ u, (dedupByUrl channels).find? (fun c => c.url == u) =
      channels.find? (fun c => c.url == u)) ∧
    (run_batch_check channels chanIds limit source pollCancel probe
      sched).final.probeCount = (channels.map Channel.url).toFinset.card := by
  refine ⟨nodup_map_dedupAux channels [],
    fun u => find?_dedupAux u channels [] (by simp), ?_⟩
  by_cases he : channels.isEmpty = true
  · have hnil : channels = [] := List.isEmpty_iff.mp he
    subst hnil
    simp [run_batch_check, initState]
  · have hfinal : (run_batch_check channels chanIds limit source pollCancel
        probe sched).final =
        runSched (dedupByUrl channels) pollCancel probe limit sched := by
      rw [run_batch_check, if_neg he]
      by_cases ha : (runSched (dedupByUrl channels) pollCancel probe limit
          sched).aborted = true <;> simp [ha]
    rw [hfinal] at hdone ⊢
    obtain ⟨hab, hlen, hpro, hfin, hlast, hbc⟩ :=
      runSched_nc_inv (dedupByUrl channels) pollCancel probe limit sched hpc
    rw [hpro]
    have hcount : startedCount (runSched (dedupByUrl channels) pollCancel
        probe limit sched) =
        (runSched (dedupByUrl channels) pollCancel probe limit
          sched).phases.length := by
      rw [startedCount, List.countP_eq_length]
      intro a ha
      have hd := List.all_eq_true.mp (by rw [← allDone_eq]; exact hdone) a ha
      cases a <;> simp [isDone] at hd ⊢ <;> simp [isStarted]
    rw [hcount, hlen, dedupByUrl_length]

/-- C5 witness: three input items with a duplicated URL; the completed run
probes exactly the 2 distinct URLs. -/
theorem C5_dedup_witness :
    (run_batch_check [⟨1, "u1", "a"⟩, ⟨9, "u1", "z"⟩, ⟨2, "u2", "b"⟩] [1, 2]
      2 "manual" (fun _ => false) (fun _ => .ok "i")
      [0, 0, 0, 1, 1, 1]).final.probeCount = 2 ∧
    (([⟨1, "u1", "a"⟩, ⟨9, "u1", "z"⟩, ⟨2, "u2", "b"⟩] : List Channel).map
      Channel.url).toFinset.card = 2 :=
  ⟨((C5_dedup [⟨1, "u1", "a"⟩, ⟨9, "u1", "z"⟩, ⟨2, "u2", "b"⟩] [1, 2] 2
      "manual" (fun _ => false) (fun _ => .ok "i") [0, 0, 0, 1, 1, 1]
      (fun _ => rfl) (by decide)).2.2).trans (by decide),
   by decide⟩

/-! ## C6 -/

/-- The computed progress value is monotone in the completion count. -/
lemma progressVal_mono (total k : Nat) :
    progressVal k total ≤ progressVal (k + 1) total := by
  unfold progressVal
  have h : k * 38 / total ≤ (k + 1) * 38 / total :=
    Nat.div_le_div_right (Nat.mul_le_mul_right 38 (Nat.le_succ k))
  exact_mod_cast Nat.add_le_add_left h 60

/-- Any intermediate progress value is strictly below the final one. -/
lemma progressVal_lt_of_lt (total k : Nat) (h : k < total) :
    progressVal k total < progressVal total total := by
  unfold progressVal
  have h0 : 0 < total := Nat.pos_of_ne_zero (by omega)
  have hfin : total * 38 / total = 38 := Nat.mul_div_cancel_left 38 h0
  have hlt : k * 38 / total < 38 := by
    rw [Nat.div_lt_iff_lt_mul h0, Nat.mul_comm 38 total]
    exact Nat.mul_lt_mul_of_pos_right h (by omega)
  rw [hfin]
  exact_mod_cast Nat.add_lt_add_left hlt 60

/-- The last reported value never exceeds the progress value of the
completions already folded. -/
lemma reportFold_fst_le (total : Nat) :
    ∀ k, (reportFold total k).1 ≤ progressVal k total := by
  intro k
  induction k with
  | zero =>
    show (-1 : Int) ≤ progressVal 0 total
    unfold progressVal
    simp
  | succ n ih =>
    rw [reportFold_succ]
    by_cases hC : shouldReport false (progressVal (n + 1) total)
        (reportFold total n).1 (n + 1) total = true
    · simp [hC]
    · simp only [hC, if_false]
      exact le_trans ih (progressVal_mono total n)

/-- On a cancellation-free completion with the invariant bound, the code's
report gate coincides with the specification's rule (difference of at
least 2, or final item). -/
lemma gate_eq (total k : Nat) (hk : k + 1 ≤ total) (last : Int)
    (hlow : last ≤ progressVal k total) :
    shouldReport false (progressVal (k + 1) total) last (k + 1) total =
      specGate (progressVal (k + 1) total) last (k + 1) total := by
  have hle : last ≤ progressVal (k + 1) total :=
    le_trans hlow (progressVal_mono total k)
  by_cases h2 : 2 ≤ progressVal (k + 1) total - last
  · have hlt : last < progressVal (k + 1) total := by omega
    have habs : 2 ≤ (progressVal (k + 1) total - last).natAbs := by omega
    simp [shouldReport, specGate, h2, hlt, habs]
  · have habs : ¬ 2 ≤ (progressVal (k + 1) total - last).natAbs := by omega
    by_cases h3 : k + 1 = total
    · have hlt : last < progressVal total total := by
        have hx := progressVal_lt_of_lt total k (by omega)
        omega
      simp [shouldReport, specGate, h2, hlt, habs, h3]
    · simp [shouldReport, specGate, h2, habs, h3]

/-- The specification's progress formula agrees with the code's. -/
lemma specProgress_eq (f t : Nat) (h : 0 < t) :
    progressVal f t = specProgress f t := by
  unfold progressVal specProgress
  rw [Nat.mul_comm 60 t, Nat.mul_add_div h]

/-- Up to the batch size, the code's report fold and the specification's
report fold coincide. -/
lemma reportFold_eq_spec (total : Nat) :
    ∀ k, k ≤ total → reportFold total k = specReportFold total k := by
  intro k
  induction k with
  | zero => intro _; rfl
  | succ n ih =>
    intro hk
    have hn := ih (by omega)
    have hp : specProgress (n + 1) total = progressVal (n + 1) total :=
      (specProgress_eq (n + 1) total (by omega)).symm
    have hg := gate_eq total n hk (reportFold total n).1
      (reportFold_fst_le total n)
    rw [reportFold_succ]
    show _ = specReportFold total (n + 1)
    rw [show specReportFold total (n + 1) =
        (if specGate (specProgress (n + 1) total)
            (specReportFold total n).1 (n + 1) total = true
         then (specProgress (n + 1) total,
          (specReportFold total n).2 ++ [specProgress (n + 1) total])
         else specReportFold total n) from rfl]
    rw [← hn, hp, hg]

/-- C6: the claim states the broadcast rule as "emit iff the new value
differs from the last broadcast value by at least 2, or this is the final
item".  Counterexample on the code: in an aborted 3-item run with
concurrency 2, worker 0 completes (value 72, broadcast), worker 2's poll
then sets the cancellation flag, and worker 1's completion computes value
85 — differing from 72 by 13 ≥ 2, so the claim requires a broadcast — but
the gate also requires `not local_aborted`, so nothing is emitted and the
broadcasts remain [72]. -/
theorem C6_counterexample :
    (runSched (dedupByUrl [⟨1, "u1", "a"⟩, ⟨2, "u2", "b"⟩, ⟨3, "u3", "c"⟩])
        (fun i => i == 2) (fun _ => .ok "img") 2
        [0, 0, 1, 1, 2, 2, 0, 2]).finished = 1 ∧
    (runSched (dedupByUrl [⟨1, "u1", "a"⟩, ⟨2, "u2", "b"⟩, ⟨3, "u3", "c"⟩])
        (fun i => i == 2) (fun _ => .ok "img") 2
        [0, 0, 1, 1, 2, 2, 0, 2]).broadcasts = [72] ∧
    (runSched (dedupByUrl [⟨1, "u1", "a"⟩, ⟨2, "u2", "b"⟩, ⟨3, "u3", "c"⟩])
        (fun i => i == 2) (fun _ => .ok "img") 2
        [0, 0, 1, 1, 2, 2, 0, 2]).lastReported = 72 ∧
    (runSched (dedupByUrl [⟨1, "u1", "a"⟩, ⟨2, "u2", "b"⟩, ⟨3, "u3", "c"⟩])
        (fun i => i == 2) (fun _ => .ok "img") 2
        [0, 0, 1, 1, 2, 2, 0, 2, 1]).finished = 2 ∧
    progressVal 2 3 = 85 ∧
    specGate 85 72 2 3 = true ∧
    (runSched (dedupByUrl [⟨1, "u1", "a"⟩, ⟨2, "u2", "b"⟩, ⟨3, "u3", "c"⟩])
        (fun i => i == 2) (fun _ => .ok "img") 2
        [0, 0, 1, 1, 2, 2, 0, 2, 1]).broadcasts = [72] := by
  decide

/-- C6 (amended): after each completed probe the progress value is
computed as floor(60 + (completed/total)·38), and as long as the shared
cancellation flag has not been set, a progress broadcast is emitted if and
only if the new value differs from the last broadcast value by at least 2
percentage points or the completed item is the final item of the batch; in
a run in which the flag is never set the emitted broadcasts are therefore
exactly those of the specification's rule.  Once the flag is set,
completions emit no further progress broadcast. -/
theorem C6_progress_reports (channels : List Channel) (chanIds : List Nat)
    (limit : Nat) (source : String) (pollCancel : Nat → Bool)
    (probe : Nat → ProbeRes) (sched : List Nat)
    (hpc : ∀ i, pollCancel i = false) :
    (run_batch_check channels chanIds limit source pollCancel probe
      sched).final.finished ≤ (dedupByUrl channels).length ∧
    (run_batch_check channels chanIds limit source pollCancel probe
        sched).final.broadcasts =
      (specReportFold (dedupByUrl channels).length
        (run_batch_check channels chanIds limit source pollCancel probe
          sched).final.finished).2 ∧
    (∀ f t, 0 < t → progressVal f t = specProgress f t) := by
  by_cases he : channels.isEmpty = true
  · have hnil : channels = [] := List.isEmpty_iff.mp he
    subst hnil
    refine ⟨by simp [run_batch_check, initState, dedupByUrl, dedupAux],
      by simp [run_batch_check, initState, dedupByUrl, dedupAux,
        specReportFold], specProgress_eq⟩
  · have hfinal : (run_batch_check channels chanIds limit source pollCancel
        probe sched).final =
        runSched (dedupByUrl channels) pollCancel probe limit sched := by
      rw [run_batch_check, if_neg he]
      by_cases ha : (runSched (dedupByUrl channels) pollCancel probe limit
          sched).aborted = true <;> simp [ha]
    rw [hfinal]
    obtain ⟨hab, hlen, hpro, hfin, hlast, hbc⟩ :=
      runSched_nc_inv (dedupByUrl channels) pollCancel probe limit sched hpc
    have hle : (runSched (dedupByUrl channels) pollCancel probe limit
        sched).finished ≤ (dedupByUrl channels).length := by
      rw [hfin, ← hlen]
      exact List.countP_le_length isDone
    refine ⟨hle, ?_, specProgress_eq⟩
    rw [hbc, reportFold_eq_spec (dedupByUrl channels).length _ hle]

/-- C6 witness: a completed cancellation-free 3-item run broadcasts
exactly the values 72, 85, 98 — the first two because they rise by at
least 2, the last because it is the final item. -/
theorem C6_progress_reports_witness :
    (run_batch_check [⟨1, "u1", "a"⟩, ⟨2, "u2", "b"⟩, ⟨3, "u3", "c"⟩]
      [1, 2, 3] 2 "manual" (fun _ => false) (fun _ => .ok "img")
      [0, 0, 0, 1, 1, 1, 2, 2, 2]).final.broadcasts = [72, 85, 98] ∧
    progressVal 2 3 = specProgress 2 3 := by
  have h := C6_progress_reports [⟨1, "u1", "a"⟩, ⟨2, "u2", "b"⟩,
    ⟨3, "u3", "c"⟩] [1, 2, 3] 2 "manual" (fun _ => false)
    (fun _ => .ok "img") [0, 0, 0, 1, 1, 1, 2, 2, 2] (fun _ => rfl)
  exact ⟨h.2.1.trans (by decide), h.2.2 2 3 (by decide)⟩

/-! ## C7 -/

/-- Looking up the row just committed for the same id finds it. -/
lemma dbGet_dbSet_self (db : Db) (tid : String) (t t' : TaskRecord)
    (h : dbGet db tid = some t) (h2 : (t'.id == tid) = true) :
    dbGet (dbSet db tid t') tid = some t' := by
  induction db with
  | nil => simp [dbGet] at h
  | cons x rest ih =>
    by_cases hx : (x.id == tid) = true
    · simp only [dbSet, List.map_cons, if_pos hx]
      exact List.find?_cons_of_pos _ h2
    · rw [dbGet, List.find?_cons_of_neg _ (by exact hx)] at h
      simp only [dbSet, List.map_cons, if_neg hx]
      rw [dbGet, List.find?_cons_of_neg _ (by exact hx)]
      exact ih h

/-- A row found by `dbGet` carries the id it was looked up by. -/
lemma dbGet_id (db : Db) (tid : String) (t : TaskRecord)
    (h : dbGet db tid = some t) : (t.id == tid) = true :=
  List.find?_some (p := fun (r : TaskRecord) => r.id == tid) (a := t) h

/-- A successful first `_update_db` attempt ends the retry loop at once. -/
lemma doUpdateAux_hit (now : Nat) (tid : String) (st : Option String)
    (pr : Option Int) (ms : Option String)
    (rs : Option (List (String × String))) (db db2 : Db) (d : BData)
    (h : updateDb db now tid st pr ms rs = (db2, some d)) :
    ∀ fuel, doUpdateAux now tid st pr ms rs db (fuel + 1) =
      (db2, some d, 1, []) := by
  intro fuel
  simp only [doUpdateAux, h]

/-- A successful `_update_db` makes `update_task_status` (with no injected
faults) commit and broadcast exactly that record. -/
lemma uts_of_hit (db : Db) (now : Nat) (tid : String) (st : Option String)
    (pr : Option Int) (ms : Option String)
    (rs : Option (List (String × String))) (db2 : Db) (d : BData)
    (h : updateDb db now tid st pr ms rs = (db2, some d)) :
    update_task_status envOk db now tid st pr ms rs = ⟨db2, [d], [], none⟩ := by
  have h5 : doUpdate db now tid st pr ms rs = (db2, some d, 1, []) := by
    rw [doUpdate, show (5 : Nat) = 4 + 1 from rfl]
    exact doUpdateAux_hit now tid st pr ms rs db db2 d h 4
  simp only [update_task_status, utsTryBody, envOk, h5]

/-- C7: the stop command transitions the task to "canceled" and triggers a
broadcast exactly when the row exists with status "pending" or "running",
answering success; when the row is missing or its status is anything else
(in particular already terminal), the ledger is left unchanged, nothing is
broadcast, no exception is raised, and the response is the distinct error
answer. -/
theorem C7_stop (db : Db) (now : Nat) (tid : String) :
    (∀ t, dbGet db tid = some t →
      (t.status = "pending" ∨ t.status = "running") →
      (stop_task db now tid).response.1 = "success" ∧
      (dbGet (stop_task db now tid).db tid).map TaskRecord.status =
        some "canceled" ∧
      (stop_task db now tid).sent.map BData.status = ["canceled"]) ∧
    ((dbGet db tid = none ∨
      ∃ t, dbGet db tid = some t ∧ t.status ≠ "pending" ∧
        t.status ≠ "running") →
      (stop_task db now tid).db = db ∧
      (stop_task db now tid).response.1 = "error" ∧
      (stop_task db now tid).sent = []) := by
  constructor
  · intro t h hst
    have htid : (t.id == tid) = true := dbGet_id db tid t h
    have hif : (t.status == "pending" || t.status == "running") = true := by
      rcases hst with h1 | h1 <;> simp [h1]
    have ht1 : dbGet (dbSet db tid { t with status := "canceled", message := "用户手动中止" }) tid = some { t with status := "canceled", message := "用户手动中止" } :=
      dbGet_dbSet_self db tid t _ h htid
    have hupd : updateDb (dbSet db tid { t with status := "canceled", message := "用户手动中止" }) now tid (some "canceled") none (some "用户手动中止") none =
        (dbSet (dbSet db tid { t with status := "canceled", message := "用户手动中止" }) tid { t with status := "canceled", message := "用户手动中止", updated_at := now },
         some ⟨t.id, t.name, "canceled", t.progress, "用户手动中止", now⟩) := by
      simp [updateDb, ht1, guardRejects]
    have huts := uts_of_hit _ now tid (some "canceled") none
      (some "用户手动中止") none _ _ hupd
    have ht5 : dbGet (dbSet (dbSet db tid { t with status := "canceled", message := "用户手动中止" }) tid { t with status := "canceled", message := "用户手动中止", updated_at := now }) tid = some { t with status := "canceled", message := "用户手动中止", updated_at := now } :=
      dbGet_dbSet_self _ tid _ _ ht1 htid
    simp [stop_task, h, hif, huts, ht5]
  · intro h
    rcases h with h | ⟨t, h, h1, h2⟩
    · simp [stop_task, h]
    · have hif : (t.status == "pending" || t.status == "running") = false := by
        simp [h1, h2]
      simp [stop_task, h, hif]

/-- C7 witness: stopping a running task succeeds and broadcasts; stopping
a canceled task and a missing task both leave the ledger unchanged and
answer the error response. -/
theorem C7_stop_witness :
    (stop_task [⟨"t1", "job", "running", 10, "go", none, 0⟩] 9
        "t1").response.1 = "success" ∧
    (dbGet (stop_task [⟨"t1", "job", "running", 10, "go", none, 0⟩] 9
        "t1").db "t1").map TaskRecord.status = some "canceled" ∧
    (stop_task [⟨"t1", "job", "canceled", 50, "stop", none, 0⟩] 9
        "t1").response.1 = "error" ∧
    (stop_task ([] : Db) 9 "t1").response.1 = "error" := by
  have h1 := (C7_stop [⟨"t1", "job", "running", 10, "go", none, 0⟩] 9 "t1").1
    ⟨"t1", "job", "running", 10, "go", none, 0⟩ (by decide) (Or.inr rfl)
  have h2 := (C7_stop [⟨"t1", "job", "canceled", 50, "stop", none, 0⟩] 9
    "t1").2 (Or.inr ⟨⟨"t1", "job", "canceled", 50, "stop", none, 0⟩,
      by decide, by decide, by decide⟩)
  have h3 := (C7_stop ([] : Db) 9 "t1").2 (Or.inl (by decide))
  exact ⟨h1.1, h1.2.1, h2.2.1, h3.2.1⟩

/-! ## C8 -/

/-- The send loop delivers to exactly the non-failing connections and
collects exactly the failing ones, in order. -/
lemma broadcastLoop_eq {W : Type} (fails : W → Bool) (conns : List W) :
    broadcastLoop fails conns =
      (conns.filter (fun c => !fails c), conns.filter fails) := by
  induction conns with
  | nil => rfl
  | cons c rest ih =>
    by_cases hc : fails c = true <;>
      simp [broadcastLoop, ih, List.filter_cons, hc]

/-- Disconnecting an element different from the head keeps the head. -/
lemma disconnect_cons_of_ne {W : Type} [DecidableEq W] (x d : W)
    (xs : List W) (hne : d ≠ x) :
    disconnect (x :: xs) d = x :: disconnect xs d := by
  by_cases hd : d ∈ xs
  · simp [disconnect, hd, List.mem_cons, List.erase_cons,
      (Ne.symm hne), hne]
  · have : d ∉ x :: xs := by simp [hne, hd]
    simp [disconnect, this, hd]

/-- Folding `disconnect` over elements that all differ from the head keeps
the head. -/
lemma foldl_disconnect_cons {W : Type} [DecidableEq W] (x : W) :
    ∀ (ds xs : List W), (∀ d ∈ ds, d ≠ x) →
      ds.foldl disconnect (x :: xs) = x :: ds.foldl disconnect xs := by
  intro ds
  induction ds with
  | nil => intro xs _; rfl
  | cons d ds' ih =>
    intro xs hd
    have h1 : d ≠ x := hd d (List.mem_cons_self d ds')
    simp only [List.foldl_cons, disconnect_cons_of_ne x d xs h1]
    exact ih _ fun e he => hd e (List.mem_cons_of_mem d he)

/-- Folding `disconnect` over the failing connections removes exactly
them. -/
lemma foldl_disconnect_filter {W : Type} [DecidableEq W] (p : W → Bool) :
    ∀ xs : List W,
      (xs.filter p).foldl disconnect xs = xs.filter (fun c => !p c) := by
  intro xs
  induction xs with
  | nil => rfl
  | cons x rest ih =>
    by_cases hx : p x = true
    · have hx2 : disconnect (x :: rest) x = rest := by
        simp [disconnect, List.erase_cons]
      simp [List.filter_cons, hx, hx2, ih]
    · have hall : ∀ d ∈ rest.filter p, d ≠ x := by
        intro d hdm
        have := List.of_mem_filter hdm
        intro he
        rw [he] at this
        exact hx this
      simp only [List.filter_cons, hx, Bool.false_eq_true, if_false,
        foldl_disconnect_cons x (rest.filter p) rest hall, ih]
      simp [hx]

/-- C8: `broadcast` sends to every connection; the payload is delivered to
exactly the connections whose send does not fail, a failing connection is
removed from the set, and every non-failing connection still receives the
payload — and the function returns normally (it is total). -/
theorem C8_broadcast {W : Type} [DecidableEq W] (fails : W → Bool)
    (conns : List W) :
    (broadcast fails conns).1 = conns.filter (fun c => !fails c) ∧
    (broadcast fails conns).2 = conns.filter (fun c => !fails c) ∧
    ∀ c ∈ conns, fails c = false → c ∈ (broadcast fails conns).1 := by
  have h1 : (broadcast fails conns).1 = conns.filter (fun c => !fails c) := by
    simp [broadcast, broadcastLoop_eq]
  have h2 : (broadcast fails conns).2 = conns.filter (fun c => !fails c) := by
    simp [broadcast, broadcastLoop_eq, foldl_disconnect_filter]
  refine ⟨h1, h2, ?_⟩
  intro c hc hf
  rw [h1]
  exact List.mem_filter.mpr ⟨hc, by simp [hf]⟩

/-- C8 witness: with observer 2 failing among observers 1, 2, 3, the
payload reaches 1 and 3, observer 2 is dropped, and observer 3 in
particular still receives it. -/
theorem C8_broadcast_witness :
    (broadcast (fun w => w == 2) [1, 2, 3]).1 = [1, 3] ∧
    (broadcast (fun w => w == 2) [1, 2, 3]).2 = [1, 3] ∧
    (3 : Nat) ∈ (broadcast (fun w => w == 2) [1, 2, 3]).1 := by
  have h := C8_broadcast (fun w => w == 2) ([1, 2, 3] : List Nat)
  exact ⟨h.1.trans (by decide), h.2.1.trans (by decide),
    h.2.2 3 (by decide) (by decide)⟩

/-! ## C9 -/

/-- C9: the claim states `connect` is an idempotent set operation, so
connecting the same observer twice yields the same observer set as
connecting it once.  Counterexample on the code: `connect` is a list
append, so connecting observer 5 twice to an empty hub yields two
entries. -/
theorem C9_counterexample :
    connect (connect ([] : List Nat) 5) 5 = [5, 5] ∧
    connect (connect ([] : List Nat) 5) 5 ≠ connect ([] : List Nat) 5 := by
  decide

/-- C9 (amended): `disconnect` of an observer that is not in the set
leaves the set unchanged without error, but `connect` is a plain list
append and is not idempotent: connecting an observer twice leaves two
entries for it (so it would receive each broadcast once per
registration). -/
theorem C9_connect_disconnect {W : Type} [DecidableEq W] (conns : List W)
    (w : W) (h : w ∉ conns) :
    disconnect conns w = conns ∧
    connect (connect conns w) w = conns ++ [w, w] := by
  constructor
  · simp [disconnect, h]
  · simp [connect]

/-- C9 witness: observer 7 absent from the hub holding 1 and 2. -/
theorem C9_connect_disconnect_witness :
    disconnect [1, 2] (7 : Nat) = [1, 2] ∧
    connect (connect [1, 2] (7 : Nat)) 7 = [1, 2] ++ [7, 7] :=
  C9_connect_disconnect [1, 2] 7 (by decide)

/-! ## C10 -/

/-- C10: `update_task_status` never propagates an exception: whatever the
fault environment injects into the database update or the broadcast, the
call returns normally, and when the try block raises the error is caught
and logged. -/
theorem C10_no_exception (env : Env) (db : Db) (now : Nat) (tid : String)
    (st : Option String) (pr : Option Int) (ms : Option String)
    (rs : Option (List (String × String))) :
    (update_task_status env db now tid st pr ms rs).raised = none ∧
    (∀ db1 e, utsTryBody env db now tid st pr ms rs = .raised db1 e →
      (update_task_status env db now tid st pr ms rs).logs =
        ["[WS] DEBUG: update_task_status 广播出错: " ++ e]) := by
  constructor
  · unfold update_task_status
    cases utsTryBody env db now tid st pr ms rs <;> rfl
  · intro db1 e h
    unfold update_task_status
    rw [h]

/-- C10 witness: a fault injected into the database update is caught and
logged. -/
theorem C10_no_exception_witness :
    (update_task_status ⟨some "boom", none⟩ [] 0 "t" none none none none).raised
      = none ∧
    (update_task_status ⟨some "boom", none⟩ [] 0 "t" none none none none).logs =
      ["[WS] DEBUG: update_task_status 广播出错: " ++ "boom"] :=
  ⟨(C10_no_exception ⟨some "boom", none⟩ [] 0 "t" none none none none).1,
   (C10_no_exception ⟨some "boom", none⟩ [] 0 "t" none none none none).2
     [] "boom" rfl⟩

end Zbgl
